/-
Verification of the promlinter core (src/promlinter.go): a shallow
embedding of the syntax-tree pattern matcher and literal-value resolver,
together with theorems about the behaviours described in the design
specification.

Modelling conventions:
* `go/ast` nodes are embedded as the inductive types `Expr`, `Decl`,
  `Stmt`, `Node` below.  An identifier's `Obj.Decl` pointer is embedded
  inline as an `Option Decl` field (faithful for the acyclic declaration
  graphs produced by the parser); for the termination analysis of the
  resolver a second, environment-based model `parseValueEnv` with explicit
  fuel is used, which can also express cyclic declaration graphs.
* Go methods that mutate `v.issues` are embedded as pure functions that
  return the list of issues they append; the callers append them, in the
  same order as the Go code does.
* A Go runtime panic (out-of-range slice index, `mustUnquote` failure) is
  embedded as the `none` value of an `Option` result, and propagates.
* `strconv.Unquote` and `prometheus.BuildFQName` are external library
  functions called by the source; they are embedded following their
  library implementations (`unquote` models the double-quoted and
  back-quoted string forms with the common escapes; unsupported escape
  sequences are treated as unquoting failures, i.e. panics).
* `promlint` (the external semantic validator) is opaque; `Run` takes it
  as a function parameter `lint` and, as in the source, wraps each of its
  problems into an `Issue`.  The `fs *token.FileSet` indirection is
  dropped: every embedded node carries its `token.Position` directly.
* `Run` walks the top-level nodes of all files in order; the Go map
  `v.metrics` keyed by occurrence is embedded as an insertion-ordered
  list of (metric, position) pairs.
-/
import Mathlib

namespace Promlinter

/-- `token.Position` restricted to the fields the linter uses; `posString`
below models its `file:line:column` formatting. -/
structure Position where
  file : String
  line : Nat
  column : Nat
deriving DecidableEq, Repr

/-- Models `token.Position.String()` for valid positions: `file:line:column`. -/
def posString (p : Position) : String :=
  p.file ++ ":" ++ toString p.line ++ ":" ++ toString p.column

/-- `Issue` from src/promlinter.go: metric name, error text and position. -/
structure Issue where
  pos : Position
  metric : String
  text : String
deriving DecidableEq, Repr

/-- `dto.MetricType` (the values used by the source). -/
inductive MetricType where
  | COUNTER
  | GAUGE
  | HISTOGRAM
  | SUMMARY
  | UNTYPED
deriving DecidableEq, Repr

/-- `dto.MetricFamily` restricted to the fields the source sets: the three
pointer-valued fields `Name`, `Help`, `Type` (a Go nil pointer is `none`). -/
structure MetricFamily where
  name : Option String
  help : Option String
  type : Option MetricType
deriving DecidableEq, Repr

/-- The `opt` struct of the source (`namespace` is a Lean keyword, so the
field is called `nspace`). -/
structure Opt where
  nspace : String
  subsystem : String
  name : String
deriving DecidableEq, Repr

/-- `promlint.Problem`: the external validator's report for one metric. -/
structure Problem where
  metric : String
  text : String
deriving DecidableEq, Repr

/-- The `visitor` state: collected metrics (insertion-ordered occurrence
list standing for the Go identity-keyed map), issues, and the mode flag. -/
structure VState where
  metrics : List (MetricFamily × Position)
  issues : List Issue
  strict : Bool
deriving DecidableEq, Repr

/-- `token.Token` literal kinds relevant to `ast.BasicLit`. -/
inductive LitKind where
  | string
  | int
  | float
  | char
  | imag
deriving DecidableEq, Repr

/-- Binary operators (`token.ADD` versus anything else). -/
inductive BinOp where
  | add
  | otherOp
deriving DecidableEq, Repr

mutual
/-- Embedding of the `go/ast` expression shapes the source inspects.
`basicLit` carries the quoted source text; `ident` carries the
`Obj.Decl` pointer inline (`none` = `Obj == nil`); `other` stands for any
further node shape and carries its Go type name (for `%T` formatting). -/
inductive Expr where
  | basicLit : Position → LitKind → String → Expr
  | ident : Position → String → Option Decl → Expr
  | selector : Position → Expr → String → Expr
  | binary : Position → BinOp → Expr → Expr → Expr
  | composite : Position → List Expr → Expr
  | keyValue : Position → Expr → Expr → Expr
  | call : Position → Expr → List Expr → Expr
  | other : Position → String → Expr

/-- Embedding of the declaration forms `Obj.Decl` may point at:
`*ast.AssignStmt` (its `Rhs`), `*ast.ValueSpec` (its `Values`), or any
other declaration shape (carrying its Go type name). -/
inductive Decl where
  | assign : List Expr → Decl
  | valueSpec : List Expr → Decl
  | otherDecl : String → Decl
end

/-- Statements: a channel send (`Chan`, `Value`), an assignment
(`Lhs`, `Rhs`), or a bare expression statement. -/
inductive Stmt where
  | send : Expr → Expr → Stmt
  | assign : List Expr → List Expr → Stmt

/-- A traversal node: expression or statement. -/
inductive Node where
  | expr : Expr → Node
  | stmt : Stmt → Node

/-- The position of an expression node (`n.Pos()` via the file set). -/
def Expr.pos : Expr → Position
  | .basicLit p _ _ => p
  | .ident p _ _ => p
  | .selector p _ _ => p
  | .binary p _ _ _ => p
  | .composite p _ => p
  | .keyValue p _ _ => p
  | .call p _ _ => p
  | .other p _ => p

/-- The Go `%T` type name of an embedded expression node. -/
def typeName : Expr → String
  | .basicLit _ _ _ => "*ast.BasicLit"
  | .ident _ _ _ => "*ast.Ident"
  | .selector _ _ _ => "*ast.SelectorExpr"
  | .binary _ _ _ _ => "*ast.BinaryExpr"
  | .composite _ _ => "*ast.CompositeLit"
  | .keyValue _ _ _ => "*ast.KeyValueExpr"
  | .call _ _ _ => "*ast.CallExpr"
  | .other _ tn => tn

/-- The Go `%T` type name of an embedded declaration node. -/
def declTypeName : Decl → String
  | .assign _ => "*ast.AssignStmt"
  | .valueSpec _ => "*ast.ValueSpec"
  | .otherDecl tn => tn

/-- The `metricsType` registry: constructor name to metric kind. -/
def metricsType : String → Option MetricType
  | "NewCounter" => some .COUNTER
  | "NewCounterVec" => some .COUNTER
  | "NewGauge" => some .GAUGE
  | "NewGaugeVec" => some .GAUGE
  | "NewHistogram" => some .HISTOGRAM
  | "NewHistogramVec" => some .HISTOGRAM
  | "NewSummary" => some .SUMMARY
  | "NewSummaryVec" => some .SUMMARY
  | _ => none

/-- The `constMetricArgs` registry: const-metric constructor name to its
required minimum argument count. -/
def constMetricArgs : String → Option Nat
  | "MustNewConstMetric" => some 3
  | "MustNewHistogram" => some 4
  | "MustNewSummary" => some 4
  | _ => none

/-- The `validOptsFields` allow-list. -/
def validOptsFields : String → Bool
  | "Name" => true
  | "Namespace" => true
  | "Subsystem" => true
  | "Help" => true
  | _ => false

/-- Models `strings.HasSuffix`. -/
def hasSuffix (s suf : String) : Bool :=
  List.isSuffixOf suf.data s.data

/-- Escape processing inside a double-quoted Go string literal: the common
single-character escapes are mapped, an unknown escape or a bare `"` makes
unquoting fail (which `mustUnquote` turns into a panic). -/
def unescapeChars : List Char → Option (List Char)
  | [] => some []
  | '\\' :: rest =>
    match rest with
    | [] => none
    | c :: rest' =>
      let ec? : Option Char :=
        if c = 'n' then some '\n'
        else if c = 't' then some '\t'
        else if c = 'r' then some '\r'
        else if c = '\\' then some '\\'
        else if c = '"' then some '"'
        else if c = '\'' then some '\''
        else none
      match ec? with
      | none => none
      | some ec =>
        match unescapeChars rest' with
        | none => none
        | some cs => some (ec :: cs)
  | '"' :: _ => none
  | c :: rest =>
    match unescapeChars rest with
    | none => none
    | some cs => some (c :: cs)

/-- Models `strconv.Unquote` for the literal forms a Go parser can emit for
`token.STRING`: a double-quoted string (escapes processed) or a
back-quoted raw string (taken verbatim). Anything else fails. -/
def unquote (s : String) : Option String :=
  match s.data with
  | '"' :: rest =>
    match rest.getLast? with
    | some '"' =>
      match unescapeChars rest.dropLast with
      | none => none
      | some cs => some (String.mk cs)
    | _ => none
  | c :: rest =>
    if c = Char.ofNat 96 then
      match rest.getLast? with
      | some l => if l = Char.ofNat 96 then some (String.mk rest.dropLast) else none
      | none => none
    else none
  | _ => none

/-- Models `prometheus.BuildFQName` from client_golang (external dependency
of the source): empty name gives the empty string, otherwise the non-empty
namespace and subsystem segments are prepended with `_` separators. -/
def BuildFQName (nspace subsystem name : String) : String :=
  if name = "" then ""
  else if nspace ≠ "" ∧ subsystem ≠ "" then nspace ++ "_" ++ subsystem ++ "_" ++ name
  else if nspace ≠ "" then nspace ++ "_" ++ name
  else if subsystem ≠ "" then subsystem ++ "_" ++ name
  else name

/-- `getConstMetricType` from the source: the value-kind identifier name of
a generic const-metric call mapped to a metric kind (the returned Go
pointer is always non-nil, so the embedding returns a plain value). -/
def getConstMetricType (name : String) : MetricType :=
  if name = "CounterValue" then .COUNTER
  else if name = "GaugeValue" then .GAUGE
  else .UNTYPED

/-- `parseValue` from the source: resolve an expression to a string value.
Returns `none` for a Go panic (a string literal `mustUnquote` rejects);
otherwise `some (issues, value, ok)` where `issues` are the diagnostics
the Go method appended to `v.issues`.  The source's separate
`*ast.ValueSpec` case is inlined at its only call site (the `*ast.Ident`
case recursing through `t.Obj.Decl`). -/
def parseValue (strict : Bool) (object : String) : Expr → Option (List Issue × String × Bool)
  | .basicLit _ kind value =>
    if kind = .string then
      match unquote value with
      | none => none
      | some s => some ([], s, true)
    else some ([], "", false)
  | .ident _ _ obj =>
    match obj with
    | some (.valueSpec values) =>
      match values with
      | [] => some ([], "", false)
      | v0 :: _ => parseValue strict object v0
    | _ => some ([], "", false)
  | .binary _ op x y =>
    if op = .add then
      match parseValue strict object x with
      | none => none
      | some (ix, xs, xok) =>
        if xok then
          match parseValue strict object y with
          | none => none
          | some (iy, ys, yok) =>
            if yok then some (ix ++ iy, xs ++ ys, true)
            else some (ix ++ iy, "", false)
        else some (ix, "", false)
    else some ([], "", false)
  | e =>
    if strict then
      some ([⟨e.pos, "",
        "parsing field " ++ object ++ " with type " ++ typeName e ++ " is not supported"⟩],
        "", false)
    else some ([], "", false)

/-- The loop body of `parseCompositeOpts`: fold the composite literal's
elements, resolving allow-listed fields. -/
def parseCompositeLoop (strict : Bool) (acc : Opt) (help : Option String) :
    List Expr → Option (List Issue × Option Opt × Option String)
  | [] => some ([], some acc, help)
  | elt :: rest =>
    match elt with
    | .keyValue _ (.ident _ kname _) value =>
      if validOptsFields kname then
        match parseValue strict kname value with
        | none => none
        | some (iss, s, ok) =>
          if ok then
            let acc' : Opt :=
              match kname with
              | "Namespace" => { acc with nspace := s }
              | "Subsystem" => { acc with subsystem := s }
              | "Name" => { acc with name := s }
              | _ => acc
            let help' : Option String := if kname = "Help" then some s else help
            match parseCompositeLoop strict acc' help' rest with
            | none => none
            | some (iss2, opts, h) => some (iss ++ iss2, opts, h)
          else some (iss, none, none)
      else parseCompositeLoop strict acc help rest
    | _ => parseCompositeLoop strict acc help rest

/-- `parseCompositeOpts` from the source: iterate the field-value pairs of
an options struct literal, starting from the zero `opt` record. -/
def parseCompositeOpts (strict : Bool) (elts : List Expr) :
    Option (List Issue × Option Opt × Option String) :=
  parseCompositeLoop strict ⟨"", "", ""⟩ none elts

/-- `parseOpts` from the source: a composite literal is parsed directly; a
bare identifier is followed one hop through an assignment whose first
right-hand side is a composite literal; anything else is not resolvable. -/
def parseOpts (strict : Bool) (n : Expr) :
    Option (List Issue × Option Opt × Option String) :=
  match n with
  | .composite _ elts => parseCompositeOpts strict elts
  | .ident _ _ (some (.assign (.composite _ elts :: _))) => parseCompositeOpts strict elts
  | _ => some ([], none, none)

/-- The tail of `parseCallerExpr` after the callee name was recognised:
the argument-count check (note the source tests `len(call.Args) < 1`
whatever `argNum` is) followed by options extraction; indexing
`call.Args[0]` of an empty argument list is a panic (`none`). -/
def parseCallerTail (v : VState) (callPos : Position) (methodName : String)
    (metricType : MetricType) (args : List Expr) : Option VState :=
  let argNum : Nat := if hasSuffix methodName "Vec" then 2 else 1
  if decide (args.length < 1) && v.strict then
    some { v with issues := v.issues ++
      [⟨callPos, "", methodName ++ " should have at least " ++ toString argNum ++ " arguments"⟩] }
  else
    match args with
    | [] => none
    | arg0 :: _ =>
      let optsPosition := arg0.pos
      match parseOpts v.strict arg0 with
      | none => none
      | some (iss, opts?, help) =>
        let v1 := { v with issues := v.issues ++ iss }
        match opts? with
        | none => some v1
        | some opts =>
          let metricName := BuildFQName opts.nspace opts.subsystem opts.name
          some { v1 with metrics :=
            v1.metrics ++ [(⟨some metricName, help, some metricType⟩, optsPosition)] }

/-- `parseCallerExpr` from the source: recognise a direct-constructor call
through the `metricsType` registry (bare identifier or selector callee). -/
def parseCallerExpr (v : VState) (callPos : Position) (fn : Expr) (args : List Expr) :
    Option VState :=
  match fn with
  | .ident _ fname _ =>
    match metricsType fname with
    | none => some v
    | some mt => parseCallerTail v callPos fname mt args
  | .selector _ _ sel =>
    match metricsType sel with
    | none => some v
    | some mt => parseCallerTail v callPos sel mt args
  | _ => some v

/-- `parseNewDescCallExpr` from the source: a `NewDesc` call must have
exactly 4 arguments in strict mode; the name and help are resolved from
the first two arguments.  In lenient mode a call with fewer than two
arguments reaches `call.Args[0]`/`call.Args[1]` and panics. -/
def parseNewDescCallExpr (strict : Bool) (callPos : Position) (args : List Expr) :
    Option (List Issue × Option String × Option String) :=
  if decide (args.length ≠ 4) && strict then
    some ([⟨callPos, "", "NewDesc should have 4 args"⟩], none, none)
  else
    match args with
    | [] => none
    | a0 :: rest =>
      match parseValue strict "fqName" a0 with
      | none => none
      | some (i0, name, ok0) =>
        if ok0 then
          match rest with
          | [] => none
          | a1 :: _ =>
            match parseValue strict "help" a1 with
            | none => none
            | some (i1, help, ok1) =>
              if ok1 then some (i0 ++ i1, some name, some help)
              else some (i0 ++ i1, none, none)
        else some (i0, none, none)

/-- `parseConstMetricOpts` from the source: the first argument of a
const-metric call is either a `NewDesc`-style call, or an identifier
followed one hop through an assignment or value-spec whose first
right-hand side is such a call; other declaration shapes raise a strict
diagnostic. -/
def parseConstMetricOpts (strict : Bool) (n : Expr) :
    Option (List Issue × Option String × Option String) :=
  match n with
  | .call cpos _ cargs => parseNewDescCallExpr strict cpos cargs
  | .ident ipos _ (some d) =>
    match d with
    | .assign (.call cpos _ cargs :: _) => parseNewDescCallExpr strict cpos cargs
    | .valueSpec (.call cpos _ cargs :: _) => parseNewDescCallExpr strict cpos cargs
    | _ =>
      if strict then
        some ([⟨ipos, "",
          "parsing desc of type " ++ declTypeName d ++ " is not supported"⟩], none, none)
      else some ([], none, none)
  | _ => some ([], none, none)

/-- The tail of `parseSendMetricChanExpr` after the callee switch: the
argument-count check, descriptor resolution, and the kind switch on the
invoked method name.  Indexing an out-of-range argument is a panic. -/
def parseSendTail (v : VState) (callPos : Position) (methodName : String)
    (requiredArgNum : Nat) (args : List Expr) : Option VState :=
  if decide (args.length < requiredArgNum) && v.strict then
    some { v with issues := v.issues ++
      [⟨callPos, "", methodName ++ " should have at least " ++
        toString requiredArgNum ++ " arguments"⟩] }
  else
    match args with
    | [] => none
    | a0 :: rest =>
      match parseConstMetricOpts v.strict a0 with
      | none => none
      | some (iss, name?, help?) =>
        let v1 := { v with issues := v.issues ++ iss }
        match name? with
        | none => some v1
        | some name =>
          if methodName = "MustNewConstMetric" then
            match rest with
            | [] => none
            | a1 :: _ =>
              let ty : Option MetricType :=
                match a1 with
                | .ident _ vn _ => some (getConstMetricType vn)
                | .selector _ _ vsel => some (getConstMetricType vsel)
                | _ => none
              some { v1 with metrics :=
                v1.metrics ++ [(⟨some name, help?, ty⟩, callPos)] }
          else if methodName = "MustNewHistogram" then
            some { v1 with metrics :=
              v1.metrics ++ [(⟨some name, help?, some .HISTOGRAM⟩, callPos)] }
          else if methodName = "MustNewSummary" then
            some { v1 with metrics :=
              v1.metrics ++ [(⟨some name, help?, some .SUMMARY⟩, callPos)] }
          else
            some { v1 with metrics :=
              v1.metrics ++ [(⟨some name, help?, none⟩, callPos)] }

/-- `parseSendMetricChanExpr` from the source: recognise a channel send of
a const-metric constructor call.  The callee switch has no default case,
so a callee that is neither an identifier nor a selector falls through
with an empty method name and a required argument count of zero. -/
def parseSendMetricChanExpr (v : VState) (value : Expr) : Option VState :=
  match value with
  | .call callPos fn args =>
    match fn with
    | .ident _ fname _ =>
      match constMetricArgs fname with
      | none => some v
      | some k => parseSendTail v callPos fname k args
    | .selector _ _ sel =>
      match constMetricArgs sel with
      | none => some v
      | some k => parseSendTail v callPos sel k args
    | _ => parseSendTail v callPos "" 0 args
  | _ => some v

/-- The `Visit` dispatch from the source: a call expression goes to
`parseCallerExpr`, a send statement to `parseSendMetricChanExpr`, every
other node is passed over (the visitor itself is always returned, so the
walk continues into children). -/
def visitNode (v : VState) (n : Node) : Option VState :=
  match n with
  | .expr e =>
    match e with
    | .call callPos fn args => parseCallerExpr v callPos fn args
    | _ => some v
  | .stmt s =>
    match s with
    | .send _ value => parseSendMetricChanExpr v value
    | .assign _ _ => some v

/-- The structural children of an expression, in `go/ast.Walk` order. -/
def exprChildren : Expr → List Expr
  | .basicLit _ _ _ => []
  | .ident _ _ _ => []
  | .selector _ x _ => [x]
  | .binary _ _ x y => [x, y]
  | .composite _ elts => elts
  | .keyValue _ k val => [k, val]
  | .call _ fn args => fn :: args
  | .other _ _ => []

/-- The structural children of a traversal node (`ast.Walk` never follows
an identifier's `Obj.Decl` pointer, so identifiers are leaves). -/
def nodeChildren : Node → List Node
  | .expr e => (exprChildren e).map Node.expr
  | .stmt (.send ch value) => [Node.expr ch, Node.expr value]
  | .stmt (.assign lhs rhs) => (lhs ++ rhs).map Node.expr

mutual
/-- A computable size of an expression, used as the walk's termination
measure. -/
def esize : Expr → Nat
  | .basicLit _ _ _ => 1
  | .ident _ _ _ => 1
  | .selector _ x _ => 1 + esize x
  | .binary _ _ x y => 1 + esize x + esize y
  | .composite _ elts => 1 + esizeList elts
  | .keyValue _ k val => 1 + esize k + esize val
  | .call _ fn args => 1 + esize fn + esizeList args
  | .other _ _ => 1

def esizeList : List Expr → Nat
  | [] => 0
  | e :: rest => esize e + esizeList rest
end

/-- Termination measure for the walk: the size of the underlying syntax
tree (the `Node` wrapper itself carries no weight). -/
def nweight : Node → Nat
  | .expr e => esize e
  | .stmt (.send ch value) => 1 + esize ch + esize value
  | .stmt (.assign lhs rhs) => 1 + esizeList lhs + esizeList rhs

theorem map_nweight_node_expr (es : List Expr) :
    ((es.map Node.expr).map nweight).sum = esizeList es := by
  induction es with
  | nil => simp [esizeList]
  | cons e rest ih => simp only [List.map_cons, List.sum_cons, ih, nweight, esizeList]

theorem nodeChildren_weight_lt (n : Node) :
    ((nodeChildren n).map nweight).sum < nweight n := by
  match n with
  | .expr e =>
    cases e <;>
      simp only [nodeChildren, exprChildren, nweight, map_nweight_node_expr,
        esize, esizeList, List.map_nil, List.map_cons, List.sum_nil, List.sum_cons] <;>
      omega
  | .stmt (.send ch value) =>
    simp only [nodeChildren, nweight, List.map_cons, List.map_nil, List.sum_cons,
      List.sum_nil]
    omega
  | .stmt (.assign lhs rhs) =>
    simp only [nodeChildren, nweight, List.map_append, List.sum_append,
      map_nweight_node_expr]
    omega

/-- `ast.Walk` over a work list of nodes (depth-first pre-order): visit the
first node, then its children, then the rest.  A panic (`none`) aborts the
whole traversal, as in Go. -/
def walk (v : VState) (ns : List Node) : Option VState :=
  match ns with
  | [] => some v
  | n :: rest =>
    match visitNode v n with
    | none => none
    | some v1 => walk v1 (nodeChildren n ++ rest)
termination_by (ns.map nweight).sum
decreasing_by
  simp only [List.map_append, List.sum_append, List.map_cons, List.sum_cons]
  have := nodeChildren_weight_lt n
  omega

/-- The fresh visitor built at the top of `Run`. -/
def initialVisitor (strict : Bool) : VState := ⟨[], [], strict⟩

/-- The lint-wrapping loop of `Run`: every problem the external validator
reports for a collected metric becomes an `Issue` carrying the metric's
recorded position and the problem's metric name and text. -/
def lintIssues (lint : MetricFamily → List Problem)
    (metrics : List (MetricFamily × Position)) : List Issue :=
  metrics.flatMap fun mp => (lint mp.1).map fun p => ⟨mp.2, p.metric, p.text⟩

/-- The ordering `Run` sorts by: the total string ordering of the
formatted positions. -/
def issueLE (i j : Issue) : Prop := posString i.pos ≤ posString j.pos

instance : DecidableRel issueLE := fun i j =>
  inferInstanceAs (Decidable (posString i.pos ≤ posString j.pos))

instance : IsTotal Issue issueLE := ⟨fun i j => le_total (posString i.pos) (posString j.pos)⟩

instance : IsTrans Issue issueLE := ⟨fun _ _ _ h1 h2 => le_trans h1 h2⟩

/-- The `sort.Slice` call of `Run`, embedded as a deterministic sort by the
position string. -/
def sortIssues (l : List Issue) : List Issue := List.insertionSort issueLE l

/-- `Run` from the source: walk the files' top-level nodes, lint every
collected metric through the external validator `lint`, wrap its problems
into issues, and sort.  `nodes` is the concatenation of the files'
top-level declarations; the result is `none` when the run panics. -/
def Run (lint : MetricFamily → List Problem) (nodes : List Node) (strict : Bool) :
    Option (List Issue) :=
  match walk (initialVisitor strict) nodes with
  | none => none
  | some v => some (sortIssues (v.issues ++ lintIssues lint v.metrics))

/-- Result of the fuel-instrumented resolver: `diverge` marks fuel
exhaustion (a witness of non-termination of the guard-free Go recursion),
`panic` a `mustUnquote` panic, `ok` the Go return value. -/
inductive PRes (α : Type) where
  | diverge
  | panic
  | ok (a : α)
deriving DecidableEq, Repr

/-- `parseValue` again, with the identifier-to-declaration pointer graph
made explicit as an environment `env` (so that cyclic declaration chains
are expressible) and with explicit fuel.  Apart from looking identifiers
up in `env` instead of the inline `Obj` field, the cases are those of
`parseValue`. -/
def parseValueEnv (env : String → Option Decl) (strict : Bool) :
    Nat → String → Expr → PRes (List Issue × String × Bool)
  | 0, _, _ => .diverge
  | _ + 1, _, .basicLit _ kind value =>
    if kind = .string then
      match unquote value with
      | none => .panic
      | some s => .ok ([], s, true)
    else .ok ([], "", false)
  | fuel + 1, object, .ident _ name _ =>
    match env name with
    | some (.valueSpec values) =>
      match values with
      | [] => .ok ([], "", false)
      | v0 :: _ => parseValueEnv env strict fuel object v0
    | _ => .ok ([], "", false)
  | fuel + 1, object, .binary _ op x y =>
    if op = .add then
      match parseValueEnv env strict fuel object x with
      | .diverge => .diverge
      | .panic => .panic
      | .ok (ix, xs, xok) =>
        if xok then
          match parseValueEnv env strict fuel object y with
          | .diverge => .diverge
          | .panic => .panic
          | .ok (iy, ys, yok) =>
            if yok then .ok (ix ++ iy, xs ++ ys, true)
            else .ok (ix ++ iy, "", false)
        else .ok (ix, "", false)
    else .ok ([], "", false)
  | _ + 1, object, e =>
    if strict then
      .ok ([⟨e.pos, "",
        "parsing field " ++ object ++ " with type " ++ typeName e ++ " is not supported"⟩],
        "", false)
    else .ok ([], "", false)

/-- The resolver's recursion only ever descends through `binary` nodes and
through declarations of identifiers; `bsize` measures the former. -/
def bsize : Expr → Nat
  | .binary _ _ x y => 1 + bsize x + bsize y
  | _ => 1

/-- An upper bound on the declaration-chain depth the resolver can enter
from an expression, given a ranking of identifiers. -/
def erank (rank : String → Nat) : Expr → Nat
  | .ident _ name _ => rank name + 1
  | .binary _ _ x y => max (erank rank x) (erank rank y)
  | _ => 0

/-- Acyclicity of the declaration graph, witnessed by a ranking: the
initializer an identifier resolves through only involves identifiers of
strictly smaller rank.  A finite acyclic declaration graph always admits
such a ranking (rank = chain depth). -/
def AcyclicRank (env : String → Option Decl) (rank : String → Nat) : Prop :=
  ∀ name values v0, env name = some (.valueSpec values) → values.head? = some v0 →
    erank rank v0 ≤ rank name

/-! ### Sample positions for concrete runs -/

def pA : Position := ⟨"a.go", 10, 5⟩

def pB : Position := ⟨"a.go", 12, 9⟩

def pC : Position := ⟨"b.go", 3, 14⟩

/-! ### Claim C1 -/

/-- C1, counterexample: a `Vec`-suffixed constructor called with a single
argument supplies fewer than its stated required minimum of 2, yet in
strict mode the source emits no Issue at all and happily produces a
descriptor — the argument-count guard tests `len(call.Args) < 1`
regardless of the `Vec` suffix.  This refutes the claim that such a call
produces exactly one structural Issue and no descriptor. -/
theorem vec_one_arg_no_issue_cex :
    parseCallerExpr ⟨[], [], true⟩ pA (.ident pA "NewCounterVec" none)
      [.composite pB
        [.keyValue pB (.ident pB "Name" none) (.basicLit pB .string "\"n\"")]] =
    some ⟨[(⟨some "n", none, some .COUNTER⟩, pB)], [], true⟩ := rfl

/-- C1, amended: the argument-count check only fires for zero-argument
calls.  For every recognised direct-constructor call with an identifier
callee and no arguments, strict mode appends exactly one structural Issue
naming the callee and the expected count (1, or 2 for `Vec`-suffixed) and
yields no descriptor, while lenient mode panics on `call.Args[0]` (so no
Issue is produced either way); a `Vec`-suffixed constructor called with
one argument is processed normally, with no argument-count Issue. -/
theorem argcount_issue_only_zero_args :
    (∀ (v : VState) (callPos ipos : Position) (cn : String) (obj : Option Decl)
        (mt : MetricType), metricsType cn = some mt →
      parseCallerExpr v callPos (.ident ipos cn obj) [] =
        if v.strict then
          some { v with issues := v.issues ++
            [⟨callPos, "", cn ++ " should have at least " ++
              toString (if hasSuffix cn "Vec" then (2 : Nat) else 1) ++ " arguments"⟩] }
        else none)
    ∧ parseCallerExpr ⟨[], [], true⟩ pA (.ident pA "NewGaugeVec" none)
        [.composite pB [.keyValue pB (.ident pB "Name" none) (.basicLit pB .string "\"g\"")]] =
      some ⟨[(⟨some "g", none, some .GAUGE⟩, pB)], [], true⟩ := by
  refine ⟨?_, rfl⟩
  intro v callPos ipos cn obj mt h
  simp only [parseCallerExpr, h, parseCallerTail, List.length_nil]
  cases hstrict : v.strict <;> simp [hstrict]

/-- C1 witness: the amended statement at a concrete zero-argument call. -/
theorem argcount_issue_only_zero_args_witness :
    parseCallerExpr ⟨[], [], true⟩ pA (.ident pA "NewCounter" none) [] =
      some ⟨[], [⟨pA, "", "NewCounter should have at least 1 arguments"⟩], true⟩ := by
  have h := argcount_issue_only_zero_args.1 ⟨[], [], true⟩ pA pA "NewCounter" none
    .COUNTER rfl
  simpa using h

/-! ### Claim C2 -/

/-- C2 (code bug): a recognised zero-argument constructor call and a
recognised zero-argument const-metric send, run in lenient mode, both
panic (the guard `len(call.Args) < 1 && v.strict` falls through to
`call.Args[0]` when `strict` is false), aborting the whole run instead of
skipping the call site as the specification requires. -/
theorem lenient_zero_args_panics :
    Run (fun _ => []) [Node.expr (.call pA (.ident pA "NewCounter" none) [])] false = none
    ∧ Run (fun _ => [])
        [Node.stmt (.send (.ident pB "ch" none)
          (.call pB (.ident pB "MustNewConstMetric" none) []))] false = none := by
  constructor <;>
    simp [Run, walk, visitNode, parseCallerExpr, parseSendMetricChanExpr, metricsType,
      constMetricArgs, parseCallerTail, parseSendTail, initialVisitor]

/-! ### Claim C3 -/

/-- C3, counterexample: the resolver does not recurse through an
assignment declaration.  Resolving `x` where `x := "a" + "b"` (an
`*ast.AssignStmt` declaration) fails, while resolving the literal
expression `"a" + "b"` directly yields `"ab"` — refuting the claim that
both yield `"ab"`. -/
theorem assign_decl_resolution_fails_cex :
    parseValue true "Name"
      (.ident pA "x" (some (.assign
        [.binary pA .add (.basicLit pA .string "\"a\"") (.basicLit pA .string "\"b\"")]))) =
      some ([], "", false)
    ∧ parseValue true "Name"
        (.binary pA .add (.basicLit pA .string "\"a\"") (.basicLit pA .string "\"b\"")) =
      some ([], "ab", true) := ⟨rfl, rfl⟩

/-- C3, amended: the resolver recurses into an identifier's declaration
only when it is a value-spec with an initializer; an assignment
declaration (or a missing declaration) silently fails.  Resolving `x`
where `var x = "a" + "b"` yields `"ab"`, the same as resolving the
literal expression directly. -/
theorem ident_resolution_valuespec_only :
    (∀ (strict : Bool) (object : String) (p : Position) (nm : String) (v0 : Expr)
        (rest : List Expr),
      parseValue strict object (.ident p nm (some (.valueSpec (v0 :: rest)))) =
        parseValue strict object v0)
    ∧ (∀ (strict : Bool) (object : String) (p : Position) (nm : String) (rhs : List Expr),
      parseValue strict object (.ident p nm (some (.assign rhs))) = some ([], "", false))
    ∧ (∀ (strict : Bool) (object : String) (p : Position) (nm : String),
      parseValue strict object (.ident p nm none) = some ([], "", false))
    ∧ parseValue true "Name"
        (.ident pA "x" (some (.valueSpec
          [.binary pA .add (.basicLit pA .string "\"a\"") (.basicLit pA .string "\"b\"")]))) =
      some ([], "ab", true)
    ∧ parseValue true "Name"
        (.binary pA .add (.basicLit pA .string "\"a\"") (.basicLit pA .string "\"b\"")) =
      some ([], "ab", true) := by
  refine ⟨?_, ?_, ?_, rfl, rfl⟩ <;> intros <;> simp [parseValue]

/-! ### Claim C5 -/

/-- Underscore-joining of a list of segments. -/
def joinSegs : List String → String
  | [] => ""
  | [s] => s
  | s :: rest => s ++ "_" ++ joinSegs rest

/-- Follows the spec's words (for comparison with the source's
`BuildFQName`): the underscore-join of the non-empty segments in the
order (namespace, subsystem, name). -/
def specUnderscoreJoin (nspace subsystem name : String) : String :=
  joinSegs ([nspace, subsystem, name].filter (fun s => !(s == "")))

theorem buildFQName_eq_join (nspace subsystem name : String) (h : name ≠ "") :
    BuildFQName nspace subsystem name = specUnderscoreJoin nspace subsystem name := by
  have e3 : (name == "") = false := by simpa using h
  by_cases h1 : nspace = "" <;> by_cases h2 : subsystem = ""
  · subst h1; subst h2
    simp [BuildFQName, specUnderscoreJoin, joinSegs, h, e3]
  · have e2 : (subsystem == "") = false := by simpa using h2
    subst h1
    simp [BuildFQName, specUnderscoreJoin, joinSegs, h, h2, e2, e3]
  · have e1 : (nspace == "") = false := by simpa using h1
    subst h2
    simp [BuildFQName, specUnderscoreJoin, joinSegs, h, h1, e1, e3]
  · have e1 : (nspace == "") = false := by simpa using h1
    have e2 : (subsystem == "") = false := by simpa using h2
    simp [BuildFQName, specUnderscoreJoin, joinSegs, h, h1, h2, e1, e2, e3,
      String.append_assoc]

/-- C5, counterexample: with `Namespace: "ns"` and an empty `Name`
literal, the spec's underscore-join of non-empty segments is `"ns"`, but
the source (via `prometheus.BuildFQName`) produces the empty string: the
whole qualified name collapses when the name segment is empty. -/
theorem empty_name_qualified_name_cex :
    parseCallerExpr ⟨[], [], true⟩ pA (.ident pA "NewCounter" none)
      [.composite pB
        [.keyValue pB (.ident pB "Namespace" none) (.basicLit pB .string "\"ns\""),
         .keyValue pB (.ident pB "Name" none) (.basicLit pB .string "\"\""),
         .keyValue pB (.ident pB "Help" none) (.basicLit pB .string "\"h\"")]] =
      some ⟨[(⟨some "", some "h", some .COUNTER⟩, pB)], [], true⟩
    ∧ specUnderscoreJoin "ns" "" "" = "ns" := ⟨rfl, rfl⟩

/-- C5, amended: for every well-formed constructor call whose
Namespace/Subsystem/Name/Help fields resolve to string literals and whose
resolved name segment is non-empty, the descriptor's qualified name is
the underscore-join of the non-empty segments in order and its help is
the unescaped literal text; when the name segment is empty the qualified
name is the empty string instead. -/
theorem qualified_name_underscore_join :
    (∀ (v : VState) (callPos ipos cpos kp : Position) (cn : String) (mt : MetricType)
        (q1 q2 q3 q4 u1 u2 u3 u4 : String),
      metricsType cn = some mt →
      unquote q1 = some u1 → unquote q2 = some u2 → unquote q3 = some u3 →
      unquote q4 = some u4 → u3 ≠ "" →
      parseCallerExpr v callPos (.ident ipos cn none)
        [.composite cpos
          [.keyValue kp (.ident kp "Namespace" none) (.basicLit kp .string q1),
           .keyValue kp (.ident kp "Subsystem" none) (.basicLit kp .string q2),
           .keyValue kp (.ident kp "Name" none) (.basicLit kp .string q3),
           .keyValue kp (.ident kp "Help" none) (.basicLit kp .string q4)]] =
        some { v with metrics := v.metrics ++
          [(⟨some (specUnderscoreJoin u1 u2 u3), some u4, some mt⟩, cpos)] })
    ∧ (∀ nspace subsystem name, name ≠ "" →
        BuildFQName nspace subsystem name = specUnderscoreJoin nspace subsystem name)
    ∧ (∀ nspace subsystem, BuildFQName nspace subsystem "" = "") := by
  refine ⟨?_, buildFQName_eq_join, fun nspace subsystem => by simp [BuildFQName]⟩
  intro v callPos ipos cpos kp cn mt q1 q2 q3 q4 u1 u2 u3 u4 hmt hq1 hq2 hq3 hq4 hu3
  simp only [parseCallerExpr, hmt, parseCallerTail, parseOpts, parseCompositeOpts,
    parseCompositeLoop, parseValue, validOptsFields, hq1, hq2, hq3, hq4,
    buildFQName_eq_join u1 u2 u3 hu3, Expr.pos]
  simp [buildFQName_eq_join u1 u2 u3 hu3]

/-- C5 witness: the amended statement at concrete literals. -/
theorem qualified_name_underscore_join_witness :
    parseCallerExpr ⟨[], [], false⟩ pA (.ident pA "NewGauge" none)
      [.composite pB
        [.keyValue pB (.ident pB "Namespace" none) (.basicLit pB .string "\"ns\""),
         .keyValue pB (.ident pB "Subsystem" none) (.basicLit pB .string "\"sub\""),
         .keyValue pB (.ident pB "Name" none) (.basicLit pB .string "\"req_total\""),
         .keyValue pB (.ident pB "Help" none) (.basicLit pB .string "\"h t\"")]] =
      some ⟨[(⟨some (specUnderscoreJoin "ns" "sub" "req_total"), some "h t",
        some .GAUGE⟩, pB)], [], false⟩ := by
  have h := qualified_name_underscore_join.1 ⟨[], [], false⟩ pA pA pB pB "NewGauge"
    .GAUGE "\"ns\"" "\"sub\"" "\"req_total\"" "\"h t\"" "ns" "sub" "req_total" "h t"
    rfl rfl rfl rfl rfl (by decide)
  simpa using h

/-! ### Claim C6 -/

/-- C6, counterexample: when the second positional argument of
`MustNewConstMetric` is not an identifier (here the float literal `1.0`),
the descriptor's kind is left nil — not defaulted to Untyped as the claim
states for "any other argument". -/
theorem const_metric_non_ident_kind_cex :
    parseSendMetricChanExpr ⟨[], [], true⟩
      (.call pA (.ident pA "MustNewConstMetric" none)
        [.call pB (.ident pB "NewDesc" none)
          [.basicLit pB .string "\"m\"", .basicLit pB .string "\"h\"",
           .ident pB "nil" none, .ident pB "nil" none],
         .basicLit pC .float "1.0", .basicLit pC .float "2.0"]) =
      some ⟨[(⟨some "m", some "h", none⟩, pA)], [], true⟩ := rfl

/-- C6, amended: the kind of a recognised const-metric send is determined
by the invoked function: `MustNewConstMetric` maps its second argument's
identifier name through `getConstMetricType` (`CounterValue` to Counter,
`GaugeValue` to Gauge, any other name to Untyped); when that argument is
neither an identifier nor a selector the kind is left nil.
`MustNewHistogram`/`MustNewSummary` always produce Histogram/Summary.
The claim's concrete example resolves to
{kind = Counter, qualifiedName = "my_metric", help = "help text"}. -/
theorem const_metric_kind_mapping :
    (∀ s, getConstMetricType s =
      if s = "CounterValue" then .COUNTER
      else if s = "GaugeValue" then .GAUGE else .UNTYPED)
    ∧ (∀ (v : VState) (callPos p2 : Position) (a0 : Expr) (vn : String)
        (obj : Option Decl) (a2 : Expr) (iss : List Issue) (nm hp : String),
      parseConstMetricOpts v.strict a0 = some (iss, some nm, some hp) →
      parseSendMetricChanExpr v (.call callPos (.ident callPos "MustNewConstMetric" none)
        [a0, .ident p2 vn obj, a2]) =
        some { v with issues := v.issues ++ iss, metrics := v.metrics ++
          [(⟨some nm, some hp, some (getConstMetricType vn)⟩, callPos)] })
    ∧ (∀ (v : VState) (callPos : Position) (a0 a1 a2 a3 : Expr) (iss : List Issue)
        (nm hp : String),
      parseConstMetricOpts v.strict a0 = some (iss, some nm, some hp) →
      parseSendMetricChanExpr v (.call callPos (.ident callPos "MustNewHistogram" none)
        [a0, a1, a2, a3]) =
        some { v with issues := v.issues ++ iss, metrics := v.metrics ++
          [(⟨some nm, some hp, some .HISTOGRAM⟩, callPos)] })
    ∧ (∀ (v : VState) (callPos : Position) (a0 a1 a2 a3 : Expr) (iss : List Issue)
        (nm hp : String),
      parseConstMetricOpts v.strict a0 = some (iss, some nm, some hp) →
      parseSendMetricChanExpr v (.call callPos (.ident callPos "MustNewSummary" none)
        [a0, a1, a2, a3]) =
        some { v with issues := v.issues ++ iss, metrics := v.metrics ++
          [(⟨some nm, some hp, some .SUMMARY⟩, callPos)] })
    ∧ parseSendMetricChanExpr ⟨[], [], true⟩
        (.call pA (.ident pA "MustNewConstMetric" none)
          [.ident pB "desc" (some (.assign
            [.call pB (.ident pB "NewDesc" none)
              [.basicLit pB .string "\"my_metric\"", .basicLit pB .string "\"help text\"",
               .ident pB "nil" none, .ident pB "nil" none]])),
           .ident pC "CounterValue" none,
           .basicLit pC .float "1.0"]) =
        some ⟨[(⟨some "my_metric", some "help text", some .COUNTER⟩, pA)], [], true⟩ := by
  refine ⟨fun s => rfl, ?_, ?_, ?_, rfl⟩ <;>
    (intro v callPos
     first
     | (intro p2 a0 vn obj a2 iss nm hp h
        simp [parseSendMetricChanExpr, constMetricArgs, parseSendTail, h])
     | (intro a0 a1 a2 a3 iss nm hp h
        simp [parseSendMetricChanExpr, constMetricArgs, parseSendTail, h]))

/-- C6 witness: the generic const-metric conjunct at concrete input. -/
theorem const_metric_kind_mapping_witness :
    parseSendMetricChanExpr ⟨[], [], false⟩
      (.call pA (.ident pA "MustNewConstMetric" none)
        [.call pB (.ident pB "NewDesc" none)
          [.basicLit pB .string "\"m2\"", .basicLit pB .string "\"h2\"",
           .ident pB "nil" none, .ident pB "nil" none],
         .ident pC "GaugeValue" none,
         .basicLit pC .float "3.5"]) =
      some ⟨[(⟨some "m2", some "h2", some (getConstMetricType "GaugeValue")⟩, pA)], [],
        false⟩ := by
  have h := const_metric_kind_mapping.2.1 ⟨[], [], false⟩ pA pC
    (.call pB (.ident pB "NewDesc" none)
      [.basicLit pB .string "\"m2\"", .basicLit pB .string "\"h2\"",
       .ident pB "nil" none, .ident pB "nil" none])
    "GaugeValue" none (.basicLit pC .float "3.5") [] "m2" "h2" rfl
  simpa using h

/-! ### Claim C7 -/

/-- C7, counterexample: in strict mode, a `Name` field whose value is a
non-string basic literal fails to resolve, the call is abandoned with no
descriptor — but no structural Issue naming the field is emitted (only
the resolver's `default` case emits one). -/
theorem silent_field_failure_cex :
    parseCallerExpr ⟨[], [], true⟩ pA (.ident pA "NewCounter" none)
      [.composite pB
        [.keyValue pB (.ident pB "Name" none) (.basicLit pC .int "42")]] =
      some ⟨[], [], true⟩ := rfl

/-- C7, amended: failure to resolve a recognised field always aborts
extraction for the whole call (no descriptor is produced); in strict mode
a structural Issue naming the field and the unsupported shape category is
emitted only when the value's shape falls into the resolver's unsupported
default category (e.g. a function call) — failing literals, identifiers
or non-`+` binary expressions abort silently. -/
theorem field_failure_aborts_call :
    (∀ (v : VState) (callPos ipos cpos : Position) (cn : String) (mt : MetricType)
        (elts : List Expr) (iss : List Issue),
      metricsType cn = some mt →
      parseCompositeOpts v.strict elts = some (iss, none, none) →
      parseCallerExpr v callPos (.ident ipos cn none) [.composite cpos elts] =
        some { v with issues := v.issues ++ iss })
    ∧ (∀ (p : Position) (fn : Expr) (cargs : List Expr),
      parseValue true "Name" (.call p fn cargs) =
        some ([⟨p, "", "parsing field Name with type *ast.CallExpr is not supported"⟩],
          "", false))
    ∧ (∀ (strict : Bool) (object : String) (p : Position) (kind : LitKind) (lit : String),
      kind ≠ .string →
      parseValue strict object (.basicLit p kind lit) = some ([], "", false))
    ∧ parseCallerExpr ⟨[], [], true⟩ pA (.ident pA "NewCounter" none)
        [.composite pB [.keyValue pB (.ident pB "Name" none)
          (.call pC (.ident pC "Sprintf" none) [])]] =
      some ⟨[], [⟨pC, "", "parsing field Name with type *ast.CallExpr is not supported"⟩],
        true⟩ := by
  refine ⟨?_, ?_, ?_, rfl⟩
  · intro v callPos ipos cpos cn mt elts iss hmt hopts
    simp [parseCallerExpr, hmt, parseCallerTail, parseOpts, hopts]
  · intro p fn cargs
    simp [parseValue, typeName, Expr.pos]
  · intro strict object p kind lit hk
    simp [parseValue, hk]

/-- C7 witness: the abort conjunct at a concrete failing field. -/
theorem field_failure_aborts_call_witness :
    parseCallerExpr ⟨[], [], true⟩ pA (.ident pA "NewSummary" none)
      [.composite pB [.keyValue pB (.ident pB "Help" none) (.basicLit pC .int "7")]] =
      some ⟨[], [], true⟩ := by
  have h := field_failure_aborts_call.1 ⟨[], [], true⟩ pA pA pB "NewSummary" .SUMMARY
    [.keyValue pB (.ident pB "Help" none) (.basicLit pC .int "7")] [] rfl rfl
  simpa using h

/-! ### State invariants of the traversal (used by claims C4 and C10) -/

theorem parseValue_issues_blank (strict : Bool) (object : String) :
    ∀ (e : Expr) (iss : List Issue) (s : String) (ok : Bool),
      parseValue strict object e = some (iss, s, ok) → ∀ i ∈ iss, i.metric = "" := by
  intro e
  induction e using parseValue.induct
  case strict => exact strict
  case object => exact object
  case case5 p nm v0 tail ih =>
    intro iss s ok hpe i hi
    simp only [parseValue] at hpe
    exact ih iss s ok hpe i hi
  all_goals intro iss s ok hpe i hi
  all_goals simp [parseValue, *] at hpe
  all_goals rcases hpe with ⟨h1, h2, h3⟩
  all_goals subst h1
  all_goals subst h2
  all_goals
    first
    | (rw [List.mem_singleton] at hi; subst hi; rfl)
    | (rcases List.mem_append.mp hi with h | h <;> solve_by_elim)
    | solve_by_elim
    | cases hi

theorem parseCompositeLoop_issues_blank (strict : Bool) :
    ∀ (acc : Opt) (help : Option String) (elts : List Expr) (iss : List Issue)
      (opts : Option Opt) (hres : Option String),
      parseCompositeLoop strict acc help elts = some (iss, opts, hres) →
      ∀ i ∈ iss, i.metric = "" := by
  intro acc help elts
  induction acc, help, elts using parseCompositeLoop.induct
  case strict => exact strict
  all_goals intro iss opts hres hpe i hi
  all_goals simp [parseCompositeLoop, *] at hpe
  all_goals try rcases hpe with ⟨h1, h2, h3⟩
  all_goals try subst h1
  all_goals
    first
    | (rcases List.mem_append.mp hi with h | h <;>
        solve_by_elim [parseValue_issues_blank])
    | solve_by_elim [parseValue_issues_blank]
    | cases hi

theorem parseCompositeOpts_issues_blank (strict : Bool) (elts : List Expr)
    (iss : List Issue) (opts : Option Opt) (hres : Option String)
    (hpe : parseCompositeOpts strict elts = some (iss, opts, hres)) :
    ∀ i ∈ iss, i.metric = "" :=
  parseCompositeLoop_issues_blank strict _ _ _ _ _ _ hpe

theorem parseOpts_issues_blank (strict : Bool) :
    ∀ (n : Expr) (iss : List Issue) (opts : Option Opt) (hres : Option String),
      parseOpts strict n = some (iss, opts, hres) → ∀ i ∈ iss, i.metric = "" := by
  intro n iss opts hres hpe i hi
  unfold parseOpts at hpe
  split at hpe
  all_goals
    first
    | exact parseCompositeOpts_issues_blank strict _ _ _ _ hpe i hi
    | (simp at hpe; rcases hpe with ⟨h1, h2, h3⟩; subst h1; cases hi)

theorem parseNewDescCallExpr_issues_blank (strict : Bool) (callPos : Position)
    (args : List Expr) :
    ∀ (iss : List Issue) (nm hp : Option String),
      parseNewDescCallExpr strict callPos args = some (iss, nm, hp) →
      ∀ i ∈ iss, i.metric = "" := by
  intro iss nm hp hpe i hi
  unfold parseNewDescCallExpr at hpe
  repeat' split at hpe
  all_goals simp at hpe
  all_goals try rcases hpe with ⟨h1, h2, h3⟩
  all_goals try subst h1
  all_goals
    first
    | (rw [List.mem_singleton] at hi; subst hi; rfl)
    | (rcases List.mem_append.mp hi with h | h <;>
        solve_by_elim [parseValue_issues_blank])
    | solve_by_elim [parseValue_issues_blank]

theorem parseConstMetricOpts_issues_blank (strict : Bool) (n : Expr) :
    ∀ (iss : List Issue) (nm hp : Option String),
      parseConstMetricOpts strict n = some (iss, nm, hp) →
      ∀ i ∈ iss, i.metric = "" := by
  intro iss nm hp hpe i hi
  unfold parseConstMetricOpts at hpe
  repeat' split at hpe
  all_goals try exact parseNewDescCallExpr_issues_blank strict _ _ _ _ _ hpe i hi
  all_goals simp at hpe
  all_goals rcases hpe with ⟨h1, h2, h3⟩
  all_goals subst h1
  all_goals
    first
    | (rw [List.mem_singleton] at hi; subst hi; rfl)
    | cases hi

/-- The two state invariants the traversal maintains: every collected
metric has a non-nil name, and every structural issue has an empty metric
name. -/
def StateOK (v : VState) : Prop :=
  (∀ mp ∈ v.metrics, mp.1.name ≠ none) ∧ (∀ i ∈ v.issues, i.metric = "")

theorem parseCallerTail_stateOK (v : VState) (cp : Position) (mn : String)
    (mt : MetricType) (args : List Expr) (v' : VState)
    (hpe : parseCallerTail v cp mn mt args = some v') (hok : StateOK v) : StateOK v' := by
  obtain ⟨hm, hi⟩ := hok
  unfold parseCallerTail at hpe
  repeat' split at hpe
  all_goals try exact Option.noConfusion hpe
  all_goals injection hpe with h
  all_goals subst h
  all_goals refine ⟨fun mp hmp => ?_, fun i him => ?_⟩
  all_goals
    first
    | exact hm mp hmp
    | exact hi i him
    | (rcases List.mem_append.mp hmp with h | h <;>
        first
        | exact hm mp h
        | (rw [List.mem_singleton] at h; subst h; simp))
    | (rcases List.mem_append.mp him with h | h <;>
        first
        | exact hi i h
        | (rw [List.mem_singleton] at h; subst h; rfl)
        | solve_by_elim [parseOpts_issues_blank])

theorem parseCallerExpr_stateOK (v : VState) (cp : Position) (fn : Expr)
    (args : List Expr) (v' : VState)
    (hpe : parseCallerExpr v cp fn args = some v') (hok : StateOK v) : StateOK v' := by
  unfold parseCallerExpr at hpe
  repeat' split at hpe
  all_goals
    first
    | (exact (Option.some.inj hpe) ▸ hok)
    | exact parseCallerTail_stateOK _ _ _ _ _ _ hpe hok

theorem parseSendTail_stateOK (v : VState) (cp : Position) (mn : String)
    (k : Nat) (args : List Expr) (v' : VState)
    (hpe : parseSendTail v cp mn k args = some v') (hok : StateOK v) : StateOK v' := by
  obtain ⟨hm, hi⟩ := hok
  unfold parseSendTail at hpe
  repeat' split at hpe
  all_goals try exact Option.noConfusion hpe
  all_goals injection hpe with h
  all_goals subst h
  all_goals refine ⟨fun mp hmp => ?_, fun i him => ?_⟩
  all_goals
    first
    | exact hm mp hmp
    | exact hi i him
    | (rcases List.mem_append.mp hmp with h | h <;>
        first
        | exact hm mp h
        | (rw [List.mem_singleton] at h; subst h; simp))
    | (rcases List.mem_append.mp him with h | h <;>
        first
        | exact hi i h
        | (rw [List.mem_singleton] at h; subst h; rfl)
        | solve_by_elim [parseConstMetricOpts_issues_blank])

theorem parseSendMetricChanExpr_stateOK (v : VState) (value : Expr) (v' : VState)
    (hpe : parseSendMetricChanExpr v value = some v') (hok : StateOK v) : StateOK v' := by
  unfold parseSendMetricChanExpr at hpe
  repeat' split at hpe
  all_goals
    first
    | (exact (Option.some.inj hpe) ▸ hok)
    | exact parseSendTail_stateOK _ _ _ _ _ _ hpe hok

theorem visitNode_stateOK (v : VState) (n : Node) (v' : VState)
    (hpe : visitNode v n = some v') (hok : StateOK v) : StateOK v' := by
  unfold visitNode at hpe
  repeat' split at hpe
  all_goals
    first
    | (exact (Option.some.inj hpe) ▸ hok)
    | exact parseCallerExpr_stateOK _ _ _ _ _ hpe hok
    | exact parseSendMetricChanExpr_stateOK _ _ _ hpe hok

theorem walk_stateOK :
    ∀ (v : VState) (ns : List Node) (v' : VState),
      walk v ns = some v' → StateOK v → StateOK v' := by
  intro v ns
  induction v, ns using walk.induct with
  | case1 v =>
    intro v' hpe hok
    rw [walk] at hpe
    exact (Option.some.inj hpe) ▸ hok
  | case2 v n rest hvis =>
    intro v' hpe hok
    rw [walk] at hpe
    rw [hvis] at hpe
    exact Option.noConfusion hpe
  | case3 v n rest v1 hvis ih =>
    intro v' hpe hok
    rw [walk] at hpe
    rw [hvis] at hpe
    exact ih v' hpe (visitNode_stateOK v n v1 hvis hok)

/-! ### Claim C4 -/

/-- C4, counterexample: a constructor call whose options carry no `Help`
field produces a descriptor whose help is nil, and that descriptor stays
in the final collection handed to the lint step — it is null-filled, not
discarded, refuting the claim that every collected descriptor has a
resolved (non-nil) help. -/
theorem final_metric_nil_help_cex :
    walk (initialVisitor true)
      [Node.expr (.call pA (.ident pA "NewGauge" none)
        [.composite pC [.keyValue pC (.ident pC "Name" none)
          (.basicLit pC .string "\"g2\"")]])] =
      some ⟨[(⟨some "g2", none, some .GAUGE⟩, pC)], [], true⟩ := by
  simp [walk, visitNode, parseCallerExpr, metricsType, parseCallerTail, parseOpts,
    parseCompositeOpts, parseCompositeLoop, parseValue, validOptsFields, unquote,
    unescapeChars, initialVisitor, nodeChildren, exprChildren, hasSuffix, BuildFQName,
    Expr.pos]

/-- C4, amended: every metric descriptor in the final collection has a
non-nil (resolved, possibly empty) qualified name — but its help may be
nil when the constructor options carry no `Help` field (and the kind may
be nil for a send whose callee expression is neither an identifier nor a
selector); such partially-filled descriptors are kept, not discarded. -/
theorem metric_name_non_nil_invariant :
    (∀ (nodes : List Node) (strict : Bool) (v' : VState),
      walk (initialVisitor strict) nodes = some v' →
      ∀ mp ∈ v'.metrics, mp.1.name ≠ none)
    ∧ walk (initialVisitor false)
        [Node.expr (.call pA (.ident pA "NewCounter" none)
          [.composite pB [.keyValue pB (.ident pB "Name" none)
            (.basicLit pB .string "\"n\"")]])] =
      some ⟨[(⟨some "n", none, some .COUNTER⟩, pB)], [], false⟩ := by
  constructor
  · intro nodes strict v' h
    exact (walk_stateOK _ _ _ h ⟨by simp [initialVisitor], by simp [initialVisitor]⟩).1
  · simp [walk, visitNode, parseCallerExpr, metricsType, parseCallerTail, parseOpts,
      parseCompositeOpts, parseCompositeLoop, parseValue, validOptsFields, unquote,
      unescapeChars, initialVisitor, nodeChildren, exprChildren, hasSuffix, BuildFQName,
      Expr.pos]

/-- C4 witness: the invariant applied to a concrete walk. -/
theorem metric_name_non_nil_invariant_witness :
    ∀ mp ∈ (⟨[(⟨some "n", none, some .COUNTER⟩, pB)], [], false⟩ : VState).metrics,
      mp.1.name ≠ none :=
  metric_name_non_nil_invariant.1
    [Node.expr (.call pA (.ident pA "NewCounter" none)
      [.composite pB [.keyValue pB (.ident pB "Name" none)
        (.basicLit pB .string "\"n\"")]])]
    false ⟨[(⟨some "n", none, some .COUNTER⟩, pB)], [], false⟩
    metric_name_non_nil_invariant.2

/-! ### Claim C8 -/

/-- C8: the issue list returned by a (non-panicking) run is sorted by the
total string ordering of positions, and sorting it again leaves it
unchanged. -/
theorem run_issues_sorted_idempotent :
    ∀ (lint : MetricFamily → List Problem) (nodes : List Node) (strict : Bool)
      (out : List Issue),
      Run lint nodes strict = some out →
      List.Sorted issueLE out ∧ sortIssues out = out := by
  intro lint nodes strict out hr
  unfold Run at hr
  cases hw : walk (initialVisitor strict) nodes with
  | none => rw [hw] at hr; exact Option.noConfusion hr
  | some v =>
    rw [hw] at hr
    injection hr with hr
    subst hr
    exact ⟨List.sorted_insertionSort issueLE _,
      List.Sorted.insertionSort_eq (List.sorted_insertionSort issueLE _)⟩

/-- C8 witness: sortedness and idempotence of a concrete run's output. -/
theorem run_issues_sorted_idempotent_witness :
    List.Sorted issueLE [(⟨pB, "n", "no help text"⟩ : Issue)]
    ∧ sortIssues [(⟨pB, "n", "no help text"⟩ : Issue)] =
      [(⟨pB, "n", "no help text"⟩ : Issue)] :=
  run_issues_sorted_idempotent (fun _ => [⟨"n", "no help text"⟩])
    [Node.expr (.call pA (.ident pA "NewCounter" none)
      [.composite pB [.keyValue pB (.ident pB "Name" none)
        (.basicLit pB .string "\"n\"")]])]
    true [⟨pB, "n", "no help text"⟩]
    (by simp [Run, walk, visitNode, parseCallerExpr, metricsType, parseCallerTail,
      parseOpts, parseCompositeOpts, parseCompositeLoop, parseValue, validOptsFields,
      unquote, unescapeChars, initialVisitor, nodeChildren, exprChildren, hasSuffix,
      BuildFQName, Expr.pos, lintIssues, sortIssues])

/-! ### Claim C10 -/

/-- C10: every issue the traversal itself collects has an empty metric
name; every issue of the final output either is such a structural issue
or wraps a validator problem, carrying the validator-reported metric name
and the recorded position of the wrapped descriptor. -/
theorem structural_issue_metric_empty :
    ∀ (lint : MetricFamily → List Problem) (nodes : List Node) (strict : Bool)
      (out : List Issue) (v' : VState),
      walk (initialVisitor strict) nodes = some v' →
      Run lint nodes strict = some out →
      (∀ i ∈ v'.issues, i.metric = "") ∧
      (∀ i ∈ out, i ∈ v'.issues ∨
        ∃ mp ∈ v'.metrics, ∃ p ∈ lint mp.1, i = ⟨mp.2, p.metric, p.text⟩) := by
  intro lint nodes strict out v' hw hr
  have hok := walk_stateOK _ _ _ hw ⟨by simp [initialVisitor], by simp [initialVisitor]⟩
  refine ⟨hok.2, ?_⟩
  intro i hio
  unfold Run at hr
  rw [hw] at hr
  injection hr with hr
  subst hr
  have hmem : i ∈ v'.issues ++ lintIssues lint v'.metrics :=
    (List.perm_insertionSort issueLE _).mem_iff.mp hio
  rcases List.mem_append.mp hmem with h | h
  · exact Or.inl h
  · right
    unfold lintIssues at h
    rw [List.mem_flatMap] at h
    obtain ⟨mp, hmp, hin⟩ := h
    rw [List.mem_map] at hin
    obtain ⟨p, hp, rfl⟩ := hin
    exact ⟨mp, hmp, p, hp, rfl⟩

/-- C10 witness: the statement at a concrete run whose output wraps one
validator problem. -/
theorem structural_issue_metric_empty_witness :
    (∀ i ∈ (⟨[(⟨some "g2", none, some .GAUGE⟩, pC)], [], true⟩ : VState).issues,
      i.metric = "") ∧
    (∀ i ∈ [(⟨pC, "g2", "help is missing"⟩ : Issue)],
      i ∈ (⟨[(⟨some "g2", none, some .GAUGE⟩, pC)], [], true⟩ : VState).issues ∨
      ∃ mp ∈ (⟨[(⟨some "g2", none, some .GAUGE⟩, pC)], [], true⟩ : VState).metrics,
        ∃ p ∈ (fun (_ : MetricFamily) => [(⟨"g2", "help is missing"⟩ : Problem)]) mp.1,
          i = ⟨mp.2, p.metric, p.text⟩) :=
  structural_issue_metric_empty (fun _ => [⟨"g2", "help is missing"⟩])
    [Node.expr (.call pA (.ident pA "NewGauge" none)
      [.composite pC [.keyValue pC (.ident pC "Name" none)
        (.basicLit pC .string "\"g2\"")]])]
    true [⟨pC, "g2", "help is missing"⟩]
    ⟨[(⟨some "g2", none, some .GAUGE⟩, pC)], [], true⟩
    (by simp [walk, visitNode, parseCallerExpr, metricsType, parseCallerTail, parseOpts,
      parseCompositeOpts, parseCompositeLoop, parseValue, validOptsFields, unquote,
      unescapeChars, initialVisitor, nodeChildren, exprChildren, hasSuffix, BuildFQName,
      Expr.pos])
    (by simp [Run, walk, visitNode, parseCallerExpr, metricsType, parseCallerTail,
      parseOpts, parseCompositeOpts, parseCompositeLoop, parseValue, validOptsFields,
      unquote, unescapeChars, initialVisitor, nodeChildren, exprChildren, hasSuffix,
      BuildFQName, Expr.pos, lintIssues, sortIssues])

/-! ### Claim C9 -/

theorem parseValueEnv_mono (env : String → Option Decl) (strict : Bool) (object : String) :
    ∀ (fuel : Nat) (e : Expr) (r : PRes (List Issue × String × Bool)),
      parseValueEnv env strict fuel object e = r → r ≠ .diverge →
      ∀ fuel', fuel ≤ fuel' → parseValueEnv env strict fuel' object e = r := by
  intro fuel
  induction fuel using Nat.strong_induction_on with
  | _ fuel ih =>
    intro e r hr hnd fuel' hle
    match fuel, hr with
    | 0, hr =>
      simp only [parseValueEnv] at hr
      exact absurd hr.symm hnd
    | f + 1, hr =>
      obtain ⟨f', rfl⟩ : ∃ f', fuel' = f' + 1 := ⟨fuel' - 1, by omega⟩
      have hff : f ≤ f' := by omega
      cases e with
      | basicLit p kind value =>
        simp only [parseValueEnv] at hr ⊢
        exact hr
      | ident p name obj =>
        cases henv : env name with
        | none =>
          simp only [parseValueEnv, henv] at hr ⊢
          exact hr
        | some d =>
          cases d with
          | assign rhs =>
            simp only [parseValueEnv, henv] at hr ⊢
            exact hr
          | otherDecl tn =>
            simp only [parseValueEnv, henv] at hr ⊢
            exact hr
          | valueSpec values =>
            cases values with
            | nil =>
              simp only [parseValueEnv, henv] at hr ⊢
              exact hr
            | cons v0 vtail =>
              simp only [parseValueEnv, henv] at hr ⊢
              exact ih f (by omega) v0 r hr hnd f' hff
      | binary p op x y =>
        by_cases hop : op = .add
        · subst hop
          simp only [parseValueEnv] at hr ⊢
          cases hx : parseValueEnv env strict f object x with
          | diverge =>
            rw [hx] at hr
            simp at hr
            exact absurd hr.symm hnd
          | panic =>
            rw [hx] at hr
            rw [ih f (by omega) x _ hx (by simp) f' hff]
            exact hr
          | ok t =>
            obtain ⟨ix, xs, xok⟩ := t
            have hx' := ih f (by omega) x _ hx (by simp) f' hff
            simp only [hx] at hr
            simp only [hx']
            cases xok with
            | false =>
              simp only [Bool.false_eq_true, if_false] at hr ⊢
              exact hr
            | true =>
              simp only [if_true] at hr ⊢
              cases hy : parseValueEnv env strict f object y with
              | diverge =>
                simp only [hy] at hr
                exact absurd hr.symm hnd
              | panic =>
                have hy' := ih f (by omega) y _ hy (by simp) f' hff
                simp only [hy] at hr
                simp only [hy']
                exact hr
              | ok t2 =>
                have hy' := ih f (by omega) y _ hy (by simp) f' hff
                simp only [hy] at hr
                simp only [hy']
                exact hr
        · simp only [parseValueEnv, hop] at hr ⊢
          exact hr
      | selector p x sel =>
        simp only [parseValueEnv] at hr ⊢
        exact hr
      | composite p elts =>
        simp only [parseValueEnv] at hr ⊢
        exact hr
      | keyValue p k val =>
        simp only [parseValueEnv] at hr ⊢
        exact hr
      | call p fn cargs =>
        simp only [parseValueEnv] at hr ⊢
        exact hr
      | other p tn =>
        simp only [parseValueEnv] at hr ⊢
        exact hr

theorem parseValueEnv_acyclic_not_diverge (env : String → Option Decl)
    (rank : String → Nat) (hac : AcyclicRank env rank) (strict : Bool)
    (object : String) :
    ∀ (R B : Nat) (e : Expr), erank rank e ≤ R → bsize e ≤ B →
      ∃ N, parseValueEnv env strict N object e ≠ .diverge := by
  intro R
  induction R using Nat.strong_induction_on with
  | _ R ihR =>
    intro B
    induction B using Nat.strong_induction_on with
    | _ B ihB =>
      intro e hR hB
      cases e with
      | basicLit p kind value =>
        refine ⟨1, ?_⟩
        simp only [parseValueEnv]
        split
        · split <;> simp
        · simp
      | ident p name obj =>
        cases henv : env name with
        | none => exact ⟨1, by simp [parseValueEnv, henv]⟩
        | some d =>
          cases d with
          | assign rhs => exact ⟨1, by simp [parseValueEnv, henv]⟩
          | otherDecl tn => exact ⟨1, by simp [parseValueEnv, henv]⟩
          | valueSpec values =>
            cases values with
            | nil => exact ⟨1, by simp [parseValueEnv, henv]⟩
            | cons v0 vtail =>
              have hrank : erank rank v0 ≤ rank name := hac name (v0 :: vtail) v0 henv rfl
              have hlt : rank name < R := by
                have he : erank rank (.ident p name obj) = rank name + 1 := rfl
                omega
              obtain ⟨N0, h0⟩ := ihR (rank name) hlt (bsize v0) v0 hrank le_rfl
              refine ⟨N0 + 1, ?_⟩
              simp only [parseValueEnv, henv]
              exact h0
      | binary p op x y =>
        by_cases hop : op = .add
        · subst hop
          have hRxy : erank rank x ≤ R ∧ erank rank y ≤ R := by
            simp only [erank, max_le_iff] at hR
            exact hR
          have hBxy : bsize x < B ∧ bsize y < B := by
            simp only [bsize] at hB
            omega
          obtain ⟨Nx, hNx⟩ := ihB (bsize x) (by omega) x hRxy.1 le_rfl
          obtain ⟨Ny, hNy⟩ := ihB (bsize y) (by omega) y hRxy.2 le_rfl
          cases hx : parseValueEnv env strict Nx object x with
          | diverge => exact absurd hx hNx
          | panic =>
            have hx' := parseValueEnv_mono env strict object Nx x _ hx (by simp)
              (max Nx Ny) (le_max_left _ _)
            exact ⟨max Nx Ny + 1, by simp [parseValueEnv, hx']⟩
          | ok t =>
            obtain ⟨ix, xs, xok⟩ := t
            have hx' := parseValueEnv_mono env strict object Nx x _ hx (by simp)
              (max Nx Ny) (le_max_left _ _)
            cases hxok : xok with
            | false => exact ⟨max Nx Ny + 1, by simp [parseValueEnv, hx', hxok]⟩
            | true =>
              cases hy : parseValueEnv env strict Ny object y with
              | diverge => exact absurd hy hNy
              | panic =>
                have hy' := parseValueEnv_mono env strict object Ny y _ hy (by simp)
                  (max Nx Ny) (le_max_right _ _)
                exact ⟨max Nx Ny + 1, by simp [parseValueEnv, hx', hxok, hy']⟩
              | ok t2 =>
                obtain ⟨iy, ys, yok⟩ := t2
                have hy' := parseValueEnv_mono env strict object Ny y _ hy (by simp)
                  (max Nx Ny) (le_max_right _ _)
                refine ⟨max Nx Ny + 1, ?_⟩
                simp only [parseValueEnv, hx', hxok, hy', if_true]
                cases yok <;> simp
        · exact ⟨1, by simp [parseValueEnv, hop]⟩
      | selector p x sel =>
        refine ⟨1, ?_⟩
        simp only [parseValueEnv]
        split <;> simp
      | composite p elts =>
        refine ⟨1, ?_⟩
        simp only [parseValueEnv]
        split <;> simp
      | keyValue p k val =>
        refine ⟨1, ?_⟩
        simp only [parseValueEnv]
        split <;> simp
      | call p fn cargs =>
        refine ⟨1, ?_⟩
        simp only [parseValueEnv]
        split <;> simp
      | other p tn =>
        refine ⟨1, ?_⟩
        simp only [parseValueEnv]
        split <;> simp

/-- A cyclic declaration environment: the identifier `x` is declared by a
value-spec whose initializer is `x` itself. -/
def cycEnv : String → Option Decl :=
  fun n => if n = "x" then some (.valueSpec [.ident pA "x" none]) else none

theorem cycEnv_diverges :
    ∀ (strict : Bool) (object : String) (fuel : Nat),
      parseValueEnv cycEnv strict fuel object (.ident pA "x" none) = .diverge := by
  intro strict object fuel
  induction fuel with
  | zero => simp [parseValueEnv]
  | succ f ih => simp [parseValueEnv, cycEnv, ih]

/-- C9: over the environment model of the declaration pointer graph, the
resolver terminates on every expression whose identifier-declaration
chains are finite and acyclic (witnessed by a rank function): there is a
fuel bound past which the fuel-instrumented resolver's result is stable
and is not fuel exhaustion.  The recursion has no depth or cycle guard:
on a cyclic declaration (`x` initialized by `x`) it exhausts every
amount of fuel. -/
theorem parseValue_terminates_acyclic :
    (∀ (env : String → Option Decl) (rank : String → Nat) (strict : Bool)
        (object : String) (e : Expr), AcyclicRank env rank →
      ∃ N r, r ≠ PRes.diverge ∧
        ∀ fuel, N ≤ fuel → parseValueEnv env strict fuel object e = r)
    ∧ (∀ (strict : Bool) (object : String) (fuel : Nat),
      parseValueEnv cycEnv strict fuel object (.ident pA "x" none) = PRes.diverge) := by
  constructor
  · intro env rank strict object e hac
    obtain ⟨N, hN⟩ := parseValueEnv_acyclic_not_diverge env rank hac strict object
      (erank rank e) (bsize e) e le_rfl le_rfl
    refine ⟨N, parseValueEnv env strict N object e, hN, ?_⟩
    intro fuel hf
    exact parseValueEnv_mono env strict object N e _ rfl hN fuel hf
  · exact cycEnv_diverges

/-- C9 witness: the termination statement at an empty (trivially acyclic)
environment and a concrete literal expression. -/
theorem parseValue_terminates_acyclic_witness :
    ∃ N r, r ≠ PRes.diverge ∧
      ∀ fuel, N ≤ fuel →
        parseValueEnv (fun _ => none) true fuel "Name"
          (.basicLit pA .string "\"a\"") = r :=
  parseValue_terminates_acyclic.1 (fun _ => none) (fun _ => 0) true "Name"
    (.basicLit pA .string "\"a\"")
    (fun _ _ _ h => Option.noConfusion h)

end Promlinter


